import Mathlib

/-!
# Verification of the OPEC TimeLine widget (GISportal)

Shallow embedding of the d3-based `opec.TimeLine` widget
(`src/unnamed/part_000`, the timeline source file).  Times are modelled as
integer milliseconds (JavaScript `Date.getTime()`), pixel quantities and
JavaScript numbers as rationals (`ℚ`), so all arithmetic is exact.
-/

namespace OpecTimeLine

/-- JavaScript `Math.round` / `d3.round(x)` (no digit argument): round half
toward positive infinity, i.e. `⌊x + 1/2⌋`. -/
def jround (x : ℚ) : ℤ := ⌊x + 1/2⌋

/-- The loop body of `getNearestInArray` (part_000 lines 63-67): an element
`e` replaces `closest` when `closest` is still `null` (modelled as `none`)
or `|e - goal|` is strictly smaller than `|closest - goal|`. -/
def nearestStep (goal : ℚ) (closest : Option ℚ) (e : ℚ) : Option ℚ :=
  match closest with
  | none => some e
  | some c => if |e - goal| < |c - goal| then some e else some c

/-- `getNearestInArray(arr, goal)` (part_000 lines 61-69): fold the loop
body over the array, starting from `closest = null`. -/
def getNearestInArray (arr : List ℚ) (goal : ℚ) : Option ℚ :=
  arr.foldl (nearestStep goal) none

/-- Tick interval units used by the x-axis (`d3.time.years` etc.). -/
inductive TickUnit where
  | years
  | months
  | weeks
  | days
  | hours
deriving DecidableEq, Repr

/-- Result of the tick-granularity selection in `redraw`: interval unit,
step count and `d3.time.format` string. -/
structure TickSpec where
  unit : TickUnit
  step : ℚ
  format : String
deriving DecidableEq, Repr

/-- `var scaling = (domain[1] - domain[0]) / (width * 4e7)`
(part_000 line 205). -/
def scalingOf (domain0 domain1 width : ℚ) : ℚ :=
  (domain1 - domain0) / (width * 40000000)

/-- The tick-policy part of `opec.TimeLine.prototype.redraw`
(part_000 lines 205-220): the strict-order if/else-if chain on `scaling`.
The final `else` branch is unreachable (the chain is exhaustive); it returns
a junk value. -/
def tickPolicy (domain0 domain1 width : ℚ) : TickSpec :=
  if scalingOf domain0 domain1 width > 12 then
    ⟨.years, (jround (scalingOf domain0 domain1 width / 12) : ℚ), "%Y"⟩
  else if scalingOf domain0 domain1 width ≤ 12 ∧
      scalingOf domain0 domain1 width > 1 then
    ⟨.months,
      (getNearestInArray [1, 2, 3, 4, 6, 12]
        (scalingOf domain0 domain1 width)).getD 0, "%b %y"⟩
  else if scalingOf domain0 domain1 width ≤ 1 ∧
      scalingOf domain0 domain1 width > 1/7 then
    ⟨.weeks, (jround (scalingOf domain0 domain1 width * (43/10)) : ℚ),
      "%d/%m/%y"⟩
  else if scalingOf domain0 domain1 width ≤ 1/7 ∧
      scalingOf domain0 domain1 width > 1/365 then
    ⟨.days, (jround (scalingOf domain0 domain1 width * 30) : ℚ), "%d/%m/%y"⟩
  else if scalingOf domain0 domain1 width ≤ 1/365 then
    ⟨.hours, (jround (scalingOf domain0 domain1 width * 730) : ℚ), "%I %p"⟩
  else
    ⟨.hours, 0, ""⟩

/-- Chart margins (`options.chartMargins`). -/
structure Margin where
  top : ℚ
  right : ℚ
  bottom : ℚ
  left : ℚ
deriving DecidableEq, Repr

/-- `this.laneHeight = this.barHeight + this.barMargin*2 + 1`
(part_000 line 98). -/
def laneHeightOf (barHeight barMargin : ℚ) : ℚ := barHeight + barMargin * 2 + 1

/-- The height computation of `opec.TimeLine.prototype.reHeight`
(part_000 lines 298-303): `height = laneHeight * timebars.length`, replaced
by the 25-pixel default when it is zero. -/
def heightOf (laneHeight : ℚ) (barCount : ℕ) : ℚ :=
  let h := laneHeight * barCount
  if h = 0 then 25 else h

/-- `chartHeight = height + margin.top + margin.bottom + 20` (line 302). -/
def chartHeightOf (height : ℚ) (m : Margin) : ℚ := height + m.top + m.bottom + 20

/-- The width computation of `opec.TimeLine.prototype.reWidth`
(part_000 lines 306-309): `width = chartWidth - margin.right - margin.left`
where `chartWidth` is the container width. -/
def widthOf (containerWidth : ℚ) (m : Margin) : ℚ :=
  containerWidth - m.right - m.left

/-- A time bar (options format, part_000 lines 20-30).  Dates are integer
milliseconds (the result of `new Date(isoString).getTime()`); date parsing
itself is abstracted away. -/
structure TimeBar where
  name : String
  label : String
  startDate : ℤ
  endDate : ℤ
  dateTimes : List ℤ
deriving DecidableEq, Repr

/-- The mutable widget state relevant to the claims: the `timebars` array,
the fixed `laneHeight` and margins, the derived geometry fields maintained
by `reHeight`/`reWidth`, the `visible` flag, and a counter of how many times
`redraw` has been invoked (standing in for the visual side effects). -/
structure TLState where
  timebars : List TimeBar
  laneHeight : ℚ
  margin : Margin
  height : ℚ
  chartHeight : ℚ
  chartWidth : ℚ
  width : ℚ
  visible : Bool
  redrawCount : ℕ
deriving DecidableEq, Repr

/-- `opec.TimeLine.prototype.reHeight` (part_000 lines 298-303). -/
def reHeight (s : TLState) : TLState :=
  let h := heightOf s.laneHeight s.timebars.length
  { s with height := h, chartHeight := chartHeightOf h s.margin }

/-- `opec.TimeLine.prototype.reWidth` (part_000 lines 306-309):
`chartWidth` is read from the container DIV at call time. -/
def reWidth (s : TLState) (containerWidth : ℚ) : TLState :=
  { s with chartWidth := containerWidth,
           width := containerWidth - s.margin.right - s.margin.left }

/-- `opec.TimeLine.prototype.redraw`, abstracted to its state effect: the
visual passes repaint the DOM but mutate none of the modelled fields, so the
model just counts the invocation. -/
def redrawStep (s : TLState) : TLState :=
  { s with redrawCount := s.redrawCount + 1 }

/-- The window-resize handler installed at construction (part_000 lines
180-183): `if (self.visible) { self.reWidth(); self.redraw(); }`. -/
def resizeEvent (s : TLState) (containerWidth : ℚ) : TLState :=
  if s.visible then redrawStep (reWidth s containerWidth) else s

/-- `opec.TimeLine.prototype.addTimeBarJSON` (part_000 lines 346-350):
push, `reHeight`, `redraw`. -/
def addTimeBarJSON (s : TLState) (timeBar : TimeBar) : TLState :=
  redrawStep (reHeight { s with timebars := s.timebars ++ [timeBar] })

/-- `opec.TimeLine.prototype.addTimeBar` (part_000 lines 353-363): build the
bar object from the parameters, then push, `reHeight`, `redraw`. -/
def addTimeBar (s : TLState) (name label : String) (startDate endDate : ℤ)
    (dateTimes : List ℤ) : TLState :=
  redrawStep (reHeight
    { s with timebars :=
        s.timebars ++ [⟨name, label, startDate, endDate, dateTimes⟩] })

/-- The actual start position of `Array.prototype.splice` (ECMA-262
ArraySpeciesCreate step): a negative index counts from the end clamped at 0,
a nonnegative index is clamped to the length. -/
def spliceStart (n index : ℤ) : ℤ :=
  if index < 0 then max (n + index) 0 else min index n

/-- JavaScript `Array.prototype.splice(index, 1)` restricted to its effect
on the array: delete (at most) one element at the actual start position. -/
def spliceRemoveOne (l : List TimeBar) (index : ℤ) : List TimeBar :=
  l.take (spliceStart l.length index).toNat ++
    l.drop ((spliceStart l.length index).toNat + 1)

/-- `opec.TimeLine.prototype.removeTimeBar` (part_000 lines 366-377):
`splice(index, 1)`, then the clear-and-restore kludge — set `timebars` to
`[]`, `reHeight`, `redraw`, restore the spliced array, `reHeight`, `redraw`. -/
def removeTimeBar (s : TLState) (index : ℤ) : TLState :=
  let spliced := spliceRemoveOne s.timebars index
  let s1 := redrawStep (reHeight { s with timebars := [] })
  redrawStep (reHeight { s1 with timebars := spliced })

/-- The removal loop of `opec.TimeLine.prototype.removeTimeBarByName`
(part_000 lines 383-389): scan `i` from 0; on a name match, `splice(i, 1)`,
decrement `i` (so the next iteration re-examines slot `i`), and record the
match.  Returns the resulting array together with the `match` flag. -/
def removeByNameLoop (name : String) (bars : List TimeBar) (i : ℕ)
    (matched : Bool) : List TimeBar × Bool :=
  if h : i < bars.length then
    if (bars.get ⟨i, h⟩).name == name then
      removeByNameLoop name (bars.take i ++ bars.drop (i + 1)) i true
    else
      removeByNameLoop name bars (i + 1) matched
  else
    (bars, matched)
termination_by bars.length - i
decreasing_by
  · simp only [List.length_append, List.length_take, List.length_drop]
    omega
  · omega

/-- `opec.TimeLine.prototype.removeTimeBarByName` (part_000 lines 380-403):
run the removal loop; if nothing matched return with no further effect,
otherwise perform the clear-and-restore double redraw. -/
def removeTimeBarByName (s : TLState) (name : String) : TLState :=
  let r := removeByNameLoop name s.timebars 0 false
  if !r.2 then { s with timebars := r.1 }
  else
    let s1 := redrawStep (reHeight { s with timebars := [] })
    redrawStep (reHeight { s1 with timebars := r.1 })

/-- Forward mapping of `d3.time.scale().domain([minD, maxD]).range([0, width])`:
linear interpolation from milliseconds to pixels. -/
def xScaleApply (minD maxD width t : ℚ) : ℚ :=
  (t - minD) / (maxD - minD) * width

/-- Inverse mapping (`xScale.invert`): pixels back to milliseconds. -/
def xScaleInvert (minD maxD width x : ℚ) : ℚ :=
  minD + x / width * (maxD - minD)

/-- One step of the `dragDate` handler (part_000 lines 143-151):
`x = xScale(draggedDate) + d3.event.dx`; revert to `x - dx` unless
`range()[0] < x < range()[1]` (the range is `[0, width]`); the new
`draggedDate` is `xScale.invert(x)`. -/
def dragDate (minD maxD width dragged dx : ℚ) : ℚ :=
  let x := xScaleApply minD maxD width dragged + dx
  let x2 := if 0 < x ∧ x < width then x else x - dx
  xScaleInvert minD maxD width x2

/-- The constant 15778450000 ms (≈ 6 months) used for the default domain. -/
def halfYearMs : ℤ := 15778450000

/-- Initial `minDate` at construction (part_000 lines 106-111):
`d3.min` of the bars' start dates, defaulting to
`selectedDate - 15778450000` when the array is empty (`d3.min` of an empty
array is `undefined`). -/
def initMinDate (selected : ℤ) (bars : List TimeBar) : ℤ :=
  match (bars.map (·.startDate)).min? with
  | none => selected - halfYearMs
  | some m => m

/-- Initial `maxDate` at construction (part_000 lines 107-114). -/
def initMaxDate (selected : ℤ) (bars : List TimeBar) : ℤ :=
  match (bars.map (·.endDate)).max? with
  | none => selected + halfYearMs
  | some m => m

/-- A JavaScript property read: the property may be absent (`undefined`),
explicitly `null`, or hold a value. -/
inductive JVal (α : Type) where
  | undef
  | null
  | val (a : α)
deriving DecidableEq, Repr

/-- A JavaScript `Date`: either a valid instant or `Invalid Date`
(the result of `new Date(undefined)`). -/
inductive JDate where
  | invalid
  | time (ms : ℤ)
deriving DecidableEq, Repr

/-- The constructor options object (part_000 lines 92-97), with each
recognised property possibly absent or null. -/
structure TLOptions where
  selectedDate : JVal ℤ
  chartMargins : JVal Margin
  barHeight : JVal ℚ
  barMargin : JVal ℚ
  timebars : JVal (List TimeBar)
deriving DecidableEq, Repr

/-- Line 92: `(options.timebars instanceof Array) ? options.timebars : []`.
Only an actual array value passes the `instanceof` test. -/
def initTimebars (o : TLOptions) : List TimeBar :=
  match o.timebars with
  | .val l => l
  | _ => []

/-- Line 93: `options.barHeight !== null ? options.barHeight : 20`.
An absent property is `undefined`, which is `!== null`, so it is kept
as-is rather than replaced by the default. -/
def initBarHeight (o : TLOptions) : JVal ℚ :=
  match o.barHeight with
  | .null => .val 20
  | x => x

/-- Line 94: `options.barMargin !== null ? options.barMargin : 4`. -/
def initBarMargin (o : TLOptions) : JVal ℚ :=
  match o.barMargin with
  | .null => .val 4
  | x => x

/-- Line 96: `options.selectedDate !== null ? new Date(options.selectedDate)
: new Date()`.  `new Date(undefined)` is an Invalid Date; `new Date()` is the
current time `now`. -/
def initSelectedDate (o : TLOptions) (now : ℤ) : JDate :=
  match o.selectedDate with
  | .null => .time now
  | .undef => .invalid
  | .val t => .time t

/-- Line 97: `options.chartMargins || { top: 0, right: 0, bottom: 0,
left: 0 }`.  Both `undefined` and `null` are falsy; an object is truthy. -/
def initMargin (o : TLOptions) : Margin :=
  match o.chartMargins with
  | .val m => m
  | _ => ⟨0, 0, 0, 0⟩

/-! ## Theorems -/

/-- C1: for every domain `[a, b]` and width `w > 0`, the tick policy computes
`scaling = (b - a) / (w * 4e7)` and selects, first match in strict order:
years with step `round(scaling/12)` when `scaling > 12`; months with step
nearest-of-`{1,2,3,4,6,12}` when `1 < scaling ≤ 12`; weeks with step
`round(scaling*4.3)` when `1/7 < scaling ≤ 1`; days with step
`round(scaling*30)` when `1/365 < scaling ≤ 1/7`; hours with step
`round(scaling*730)` when `scaling ≤ 1/365`.  The boundaries are exact:
`scaling` equal to `12`, `1`, `1/7`, `1/365` selects the lower-bound branch
(months, weeks, days, hours). -/
theorem tickPolicy_branches (a b w : ℚ) (hw : 0 < w) :
    (12 < scalingOf a b w →
      tickPolicy a b w =
        ⟨.years, (jround (scalingOf a b w / 12) : ℚ), "%Y"⟩) ∧
    (1 < scalingOf a b w ∧ scalingOf a b w ≤ 12 →
      tickPolicy a b w =
        ⟨.months,
          (getNearestInArray [1, 2, 3, 4, 6, 12] (scalingOf a b w)).getD 0,
          "%b %y"⟩) ∧
    (1/7 < scalingOf a b w ∧ scalingOf a b w ≤ 1 →
      tickPolicy a b w =
        ⟨.weeks, (jround (scalingOf a b w * (43/10)) : ℚ), "%d/%m/%y"⟩) ∧
    (1/365 < scalingOf a b w ∧ scalingOf a b w ≤ 1/7 →
      tickPolicy a b w =
        ⟨.days, (jround (scalingOf a b w * 30) : ℚ), "%d/%m/%y"⟩) ∧
    (scalingOf a b w ≤ 1/365 →
      tickPolicy a b w =
        ⟨.hours, (jround (scalingOf a b w * 730) : ℚ), "%I %p"⟩) ∧
    (scalingOf a b w = 12 → (tickPolicy a b w).unit = .months) ∧
    (scalingOf a b w = 1 → (tickPolicy a b w).unit = .weeks) ∧
    (scalingOf a b w = 1/7 → (tickPolicy a b w).unit = .days) ∧
    (scalingOf a b w = 1/365 → (tickPolicy a b w).unit = .hours) := by
  refine ⟨fun h => ?_, fun h => ?_, fun h => ?_, fun h => ?_, fun h => ?_,
    fun h => ?_, fun h => ?_, fun h => ?_, fun h => ?_⟩
  · unfold tickPolicy
    rw [if_pos h]
  · obtain ⟨hl, hr⟩ := h
    unfold tickPolicy
    rw [if_neg (by linarith), if_pos ⟨hr, hl⟩]
  · obtain ⟨hl, hr⟩ := h
    unfold tickPolicy
    rw [if_neg (by linarith), if_neg (by rintro ⟨h6, h7⟩; linarith),
      if_pos ⟨hr, hl⟩]
  · obtain ⟨hl, hr⟩ := h
    unfold tickPolicy
    rw [if_neg (by linarith), if_neg (by rintro ⟨h6, h7⟩; linarith),
      if_neg (by rintro ⟨h6, h7⟩; linarith), if_pos ⟨hr, hl⟩]
  · unfold tickPolicy
    rw [if_neg (by linarith), if_neg (by rintro ⟨h6, h7⟩; linarith),
      if_neg (by rintro ⟨h6, h7⟩; linarith),
      if_neg (by rintro ⟨h6, h7⟩; linarith), if_pos h]
  · unfold tickPolicy
    rw [if_neg (by linarith), if_pos ⟨by linarith, by linarith⟩]
  · unfold tickPolicy
    rw [if_neg (by linarith), if_neg (by rintro ⟨h6, h7⟩; linarith),
      if_pos ⟨by linarith, by linarith⟩]
  · unfold tickPolicy
    rw [if_neg (by linarith), if_neg (by rintro ⟨h6, h7⟩; linarith),
      if_neg (by rintro ⟨h6, h7⟩; linarith),
      if_pos ⟨by linarith, by linarith⟩]
  · unfold tickPolicy
    rw [if_neg (by linarith), if_neg (by rintro ⟨h6, h7⟩; linarith),
      if_neg (by rintro ⟨h6, h7⟩; linarith),
      if_neg (by rintro ⟨h6, h7⟩; linarith), if_pos (by linarith)]

/-- C1 witness: concrete widths and domains exercising every branch of the
tick policy, including each exact boundary. -/
theorem tickPolicy_branches_witness :
    (0 : ℚ) < 1 ∧
    tickPolicy 0 960000000 1 = ⟨.years, 2, "%Y"⟩ ∧
    tickPolicy 0 480000000 1 = ⟨.months, 12, "%b %y"⟩ ∧
    tickPolicy 0 40000000 1 = ⟨.weeks, 4, "%d/%m/%y"⟩ ∧
    tickPolicy 0 (40000000/7) 1 = ⟨.days, 4, "%d/%m/%y"⟩ ∧
    tickPolicy 0 (40000000/365) 1 = ⟨.hours, 2, "%I %p"⟩ := by
  have h1 := (tickPolicy_branches 0 960000000 1 (by norm_num)).1
  have h2 := (tickPolicy_branches 0 480000000 1 (by norm_num)).2.1
  have h3 := (tickPolicy_branches 0 40000000 1 (by norm_num)).2.2.1
  have h4 := (tickPolicy_branches 0 (40000000/7) 1 (by norm_num)).2.2.2.1
  have h5 := (tickPolicy_branches 0 (40000000/365) 1 (by norm_num)).2.2.2.2.1
  refine ⟨by norm_num, ?_, ?_, ?_, ?_, ?_⟩
  · rw [h1 (by unfold scalingOf; norm_num)]
    have : scalingOf 0 960000000 1 = 24 := by unfold scalingOf; norm_num
    rw [this]
    norm_num [jround]
  · rw [h2 ⟨by unfold scalingOf; norm_num, by unfold scalingOf; norm_num⟩]
    have : scalingOf 0 480000000 1 = 12 := by unfold scalingOf; norm_num
    rw [this]
    norm_num [getNearestInArray, nearestStep, List.foldl, abs]
  · rw [h3 ⟨by unfold scalingOf; norm_num, by unfold scalingOf; norm_num⟩]
    have : scalingOf 0 40000000 1 = 1 := by unfold scalingOf; norm_num
    rw [this]
    norm_num [jround]
  · rw [h4 ⟨by unfold scalingOf; norm_num, by unfold scalingOf; norm_num⟩]
    have : scalingOf 0 (40000000/7) 1 = 1/7 := by unfold scalingOf; norm_num
    rw [this]
    norm_num [jround]
  · rw [h5 (by unfold scalingOf; norm_num)]
    have : scalingOf 0 (40000000/365) 1 = 1/365 := by
      unfold scalingOf; norm_num
    rw [this]
    norm_num [jround]

/-- C2: for non-negative `barHeight` and `barMargin`, any margins and bar
count `n`: `laneHeight = barHeight + 2*barMargin + 1`;
`height = laneHeight * n` when `n > 0` and `height = 25` when `n = 0`;
`chartHeight = height + margin.top + margin.bottom + 20`;
`width = containerWidth - margin.left - margin.right`. -/
theorem geometry_contract (barHeight barMargin containerWidth h : ℚ)
    (m : Margin) (n : ℕ) (hbh : 0 ≤ barHeight) (hbm : 0 ≤ barMargin) :
    laneHeightOf barHeight barMargin = barHeight + 2 * barMargin + 1 ∧
    (0 < n →
      heightOf (laneHeightOf barHeight barMargin) n =
        laneHeightOf barHeight barMargin * n) ∧
    heightOf (laneHeightOf barHeight barMargin) 0 = 25 ∧
    chartHeightOf h m = h + m.top + m.bottom + 20 ∧
    widthOf containerWidth m = containerWidth - m.left - m.right := by
  have hlane : 0 < laneHeightOf barHeight barMargin := by
    unfold laneHeightOf; linarith
  refine ⟨by unfold laneHeightOf; ring, ?_, ?_, rfl, by unfold widthOf; ring⟩
  · intro hn
    unfold heightOf
    have : laneHeightOf barHeight barMargin * (n : ℚ) ≠ 0 := by
      have hn' : (0 : ℚ) < n := by exact_mod_cast hn
      positivity
    simp [this]
  · unfold heightOf
    simp

/-- C2 witness: the geometry contract evaluated at the widget defaults
(`barHeight = 20`, `barMargin = 4`, a 600px container, 5px margins, 2 bars). -/
theorem geometry_contract_witness :
    (0 : ℚ) ≤ 20 ∧ (0 : ℚ) ≤ 4 ∧
    (laneHeightOf 20 4 = 20 + 2 * 4 + 1 ∧
      (0 < 2 → heightOf (laneHeightOf 20 4) 2 = laneHeightOf 20 4 * 2) ∧
      heightOf (laneHeightOf 20 4) 0 = 25 ∧
      chartHeightOf 58 ⟨5, 5, 5, 5⟩ = 58 + 5 + 5 + 20 ∧
      widthOf 600 ⟨5, 5, 5, 5⟩ = 600 - 5 - 5) :=
  ⟨by norm_num, by norm_num,
    geometry_contract 20 4 600 58 ⟨5, 5, 5, 5⟩ 2 (by norm_num) (by norm_num)⟩

/-- C9: a container resize recomputes the width geometry and redraws exactly
when the `visible` flag is true; when the widget is hidden, the resize event
leaves the whole widget state unchanged. -/
theorem resize_visible_gate (s : TLState) (cw : ℚ) :
    (s.visible = false → resizeEvent s cw = s) ∧
    (s.visible = true →
      (resizeEvent s cw).chartWidth = cw ∧
      (resizeEvent s cw).width = cw - s.margin.right - s.margin.left ∧
      (resizeEvent s cw).redrawCount = s.redrawCount + 1) ∧
    ((resizeEvent s cw).redrawCount ≠ s.redrawCount ↔ s.visible = true) := by
  unfold resizeEvent redrawStep reWidth
  cases h : s.visible <;> simp

/-- C9 witness: resize on a concrete hidden state is the identity, and on
the same state made visible it updates the width fields and redraws once. -/
theorem resize_visible_gate_witness :
    (TLState.visible ⟨[], 29, ⟨0, 0, 0, 0⟩, 25, 45, 600, 600, false, 0⟩
        = false →
      resizeEvent ⟨[], 29, ⟨0, 0, 0, 0⟩, 25, 45, 600, 600, false, 0⟩ 800 =
        ⟨[], 29, ⟨0, 0, 0, 0⟩, 25, 45, 600, 600, false, 0⟩) ∧
    resizeEvent ⟨[], 29, ⟨0, 0, 0, 0⟩, 25, 45, 600, 600, false, 0⟩ 800 =
      ⟨[], 29, ⟨0, 0, 0, 0⟩, 25, 45, 600, 600, false, 0⟩ ∧
    (resizeEvent ⟨[], 29, ⟨0, 0, 0, 0⟩, 25, 45, 600, 600, true, 0⟩ 800).width
      = 800 := by
  have h0 :=
    (resize_visible_gate ⟨[], 29, ⟨0, 0, 0, 0⟩, 25, 45, 600, 600, false, 0⟩
      800).1
  have h1 :=
    (resize_visible_gate ⟨[], 29, ⟨0, 0, 0, 0⟩, 25, 45, 600, 600, true, 0⟩
      800).2.1 rfl
  exact ⟨h0, h0 rfl, by rw [h1.2.1]; norm_num⟩

/-- The options object with every recognised property absent. -/
def optionsAllAbsent : TLOptions := ⟨.undef, .undef, .undef, .undef, .undef⟩

/-- C7 (refuting evaluation): when the recognised options are absent
(`undefined`), the constructor's `!== null` guards keep the `undefined`
value instead of applying the documented defaults — `barHeight` stays
`undefined` (not 20), `barMargin` stays `undefined` (not 4), and
`selectedDate` becomes an Invalid Date (not the current time); only
`timebars` and `chartMargins` actually fall back to their defaults. -/
theorem optionDefaults_absent_bug :
    initTimebars optionsAllAbsent = [] ∧
    initMargin optionsAllAbsent = ⟨0, 0, 0, 0⟩ ∧
    initBarHeight optionsAllAbsent = .undef ∧
    initBarHeight optionsAllAbsent ≠ .val 20 ∧
    initBarMargin optionsAllAbsent = .undef ∧
    initBarMargin optionsAllAbsent ≠ .val 4 ∧
    (∀ now : ℤ, initSelectedDate optionsAllAbsent now = .invalid) ∧
    (∀ now : ℤ, initSelectedDate optionsAllAbsent now ≠ .time now) := by
  refine ⟨rfl, rfl, rfl, ?_, rfl, ?_, fun now => rfl, fun now => ?_⟩ <;>
    simp [initBarHeight, initBarMargin, initSelectedDate, optionsAllAbsent]

/-- The part of C7 the code does satisfy: an explicitly `null` option takes
the documented default, and absent `timebars`/`chartMargins` default
correctly. -/
theorem optionDefaults_null_path (o : TLOptions) (now : ℤ) :
    (o.barHeight = .null → initBarHeight o = .val 20) ∧
    (o.barMargin = .null → initBarMargin o = .val 4) ∧
    (o.selectedDate = .null → initSelectedDate o now = .time now) ∧
    (o.timebars = .undef → initTimebars o = []) ∧
    (o.chartMargins = .undef → initMargin o = ⟨0, 0, 0, 0⟩) := by
  refine ⟨fun h => ?_, fun h => ?_, fun h => ?_, fun h => ?_, fun h => ?_⟩ <;>
    simp [initBarHeight, initBarMargin, initSelectedDate, initTimebars,
      initMargin, h]

/-- Witness for the null-path defaults at a concrete all-null options
object. -/
theorem optionDefaults_null_path_witness :
    initBarHeight ⟨.null, .null, .null, .null, .null⟩ = .val 20 ∧
    initBarMargin ⟨.null, .null, .null, .null, .null⟩ = .val 4 ∧
    initSelectedDate ⟨.null, .null, .null, .null, .null⟩ 1000 = .time 1000 :=
  ⟨(optionDefaults_null_path ⟨.null, .null, .null, .null, .null⟩ 1000).1 rfl,
   (optionDefaults_null_path ⟨.null, .null, .null, .null, .null⟩ 1000).2.1 rfl,
   (optionDefaults_null_path
      ⟨.null, .null, .null, .null, .null⟩ 1000).2.2.1 rfl⟩

/-- The scale's inverse undoes the forward mapping on a nondegenerate
domain and a nonzero width. -/
theorem xScaleInvert_apply (minD maxD width t : ℚ) (hd : maxD - minD ≠ 0)
    (hw : width ≠ 0) :
    xScaleInvert minD maxD width (xScaleApply minD maxD width t) = t := by
  unfold xScaleApply xScaleInvert
  field_simp
  ring

/-- The inverse mapping sends pixels inside `[0, width]` to dates inside
the domain. -/
theorem xScaleInvert_bounds (minD maxD width x : ℚ) (hdom : minD < maxD)
    (hw : 0 < width) (hx0 : 0 ≤ x) (hx1 : x ≤ width) :
    minD ≤ xScaleInvert minD maxD width x ∧
      xScaleInvert minD maxD width x ≤ maxD := by
  unfold xScaleInvert
  constructor
  · have h : 0 ≤ x / width * (maxD - minD) :=
      mul_nonneg (div_nonneg hx0 hw.le) (by linarith)
    linarith
  · have h1 : x / width ≤ 1 := (div_le_one hw).mpr hx1
    have h2 : x / width * (maxD - minD) ≤ 1 * (maxD - minD) :=
      mul_le_mul_of_nonneg_right h1 (by linarith)
    linarith

/-- C3: during a drag step with pixel delta `dx`, the candidate position
`x = scale(draggedDate) + dx` is rejected (reverted to its previous value)
whenever it falls outside `[0, width]`, and the resulting `draggedDate`
stays inside the visible domain — in particular it never exceeds
`maxDate`. -/
theorem dragDate_clamped (minD maxD width dragged dx : ℚ)
    (hdom : minD < maxD) (hw : 0 < width)
    (hlo : minD ≤ dragged) (hhi : dragged ≤ maxD) :
    ((xScaleApply minD maxD width dragged + dx < 0 ∨
        width < xScaleApply minD maxD width dragged + dx) →
      dragDate minD maxD width dragged dx = dragged) ∧
    minD ≤ dragDate minD maxD width dragged dx ∧
    dragDate minD maxD width dragged dx ≤ maxD := by
  have hdne : maxD - minD ≠ 0 := by
    intro hc
    linarith [sub_eq_zero.mp hc]
  have hwne : width ≠ 0 := ne_of_gt hw
  have hid : xScaleInvert minD maxD width
      (xScaleApply minD maxD width dragged) = dragged :=
    xScaleInvert_apply minD maxD width dragged hdne hwne
  have hdef : dragDate minD maxD width dragged dx =
      xScaleInvert minD maxD width
        (if 0 < xScaleApply minD maxD width dragged + dx ∧
            xScaleApply minD maxD width dragged + dx < width then
          xScaleApply minD maxD width dragged + dx
        else xScaleApply minD maxD width dragged + dx - dx) := rfl
  have hrevert : xScaleApply minD maxD width dragged + dx - dx =
      xScaleApply minD maxD width dragged := by ring
  refine ⟨fun h => ?_, ?_⟩
  · rw [hdef, if_neg ?_, hrevert, hid]
    rcases h with h | h
    · rintro ⟨h1, h2⟩
      linarith
    · rintro ⟨h1, h2⟩
      linarith
  · by_cases hc : 0 < xScaleApply minD maxD width dragged + dx ∧
        xScaleApply minD maxD width dragged + dx < width
    · rw [hdef, if_pos hc]
      exact xScaleInvert_bounds minD maxD width _ hdom hw hc.1.le hc.2.le
    · rw [hdef, if_neg hc, hrevert, hid]
      exact ⟨hlo, hhi⟩

/-- C3 witness: domain `[0, 100]`, width 10, marker at date 50 (pixel 5).
A delta of +7 overshoots the right edge and is rejected, leaving the
dragged date at 50; a delta of +2 is accepted and keeps the date inside
the domain. -/
theorem dragDate_clamped_witness :
    ((0 : ℚ) < 100 ∧ (0 : ℚ) < 10 ∧ (0 : ℚ) ≤ 50 ∧ (50 : ℚ) ≤ 100) ∧
    dragDate 0 100 10 50 7 = 50 ∧
    0 ≤ dragDate 0 100 10 50 2 ∧ dragDate 0 100 10 50 2 ≤ 100 := by
  have h1 := dragDate_clamped 0 100 10 50 7 (by norm_num) (by norm_num)
    (by norm_num) (by norm_num)
  have h2 := dragDate_clamped 0 100 10 50 2 (by norm_num) (by norm_num)
    (by norm_num) (by norm_num)
  refine ⟨by norm_num, h1.1 ?_, h2.2⟩
  right
  unfold xScaleApply
  norm_num

/-- C6: with no timebars the constructed domain defaults to
`selectedDate ± 15778450000` milliseconds (≈ 6 months either side); with
timebars present it is the minimum `startDate` through the maximum
`endDate` over all bars. -/
theorem initDomain_spec (sel : ℤ) (bars : List TimeBar) :
    (bars = [] →
      initMinDate sel bars = sel - 15778450000 ∧
      initMaxDate sel bars = sel + 15778450000) ∧
    (bars ≠ [] →
      ((∃ b ∈ bars, initMinDate sel bars = b.startDate) ∧
        ∀ b ∈ bars, initMinDate sel bars ≤ b.startDate) ∧
      ((∃ b ∈ bars, initMaxDate sel bars = b.endDate) ∧
        ∀ b ∈ bars, b.endDate ≤ initMaxDate sel bars)) := by
  constructor
  · intro h
    subst h
    exact ⟨rfl, rfl⟩
  · intro h
    have hmne : bars.map (·.startDate) ≠ [] := by
      simpa using h
    have hxne : bars.map (·.endDate) ≠ [] := by
      simpa using h
    constructor
    · cases hmin : (bars.map (·.startDate)).min? with
      | none => exact absurd (List.min?_eq_none_iff.mp hmin) hmne
      | some m =>
        have hval : initMinDate sel bars = m := by
          unfold initMinDate
          rw [hmin]
        have hmem : m ∈ bars.map (·.startDate) :=
          List.min?_mem (fun a b => min_choice a b) hmin
        have hbound : ∀ x ∈ bars.map (·.startDate), m ≤ x :=
          (List.le_min?_iff (fun a b c => le_min_iff) hmin).mp le_rfl
        obtain ⟨b, hb, hbe⟩ := List.mem_map.mp hmem
        refine ⟨⟨b, hb, by rw [hval, hbe]⟩, fun b2 hb2 => ?_⟩
        rw [hval]
        exact hbound _ (List.mem_map.mpr ⟨b2, hb2, rfl⟩)
    · cases hmax : (bars.map (·.endDate)).max? with
      | none => exact absurd (List.max?_eq_none_iff.mp hmax) hxne
      | some m =>
        have hval : initMaxDate sel bars = m := by
          unfold initMaxDate
          rw [hmax]
        have hmem : m ∈ bars.map (·.endDate) :=
          List.max?_mem (fun a b => max_choice a b) hmax
        have hbound : ∀ x ∈ bars.map (·.endDate), x ≤ m :=
          (List.max?_le_iff (fun a b c => max_le_iff) hmax).mp le_rfl
        obtain ⟨b, hb, hbe⟩ := List.mem_map.mp hmem
        refine ⟨⟨b, hb, by rw [hval, hbe]⟩, fun b2 hb2 => ?_⟩
        rw [hval]
        exact hbound _ (List.mem_map.mpr ⟨b2, hb2, rfl⟩)

/-- C6 witness: the empty-bars default and a two-bar min/max at concrete
values; the bound side is instantiated at the first bar. -/
theorem initDomain_spec_witness :
    (initMinDate 1000 [] = 1000 - 15778450000 ∧
      initMaxDate 1000 [] = 1000 + 15778450000) ∧
    (∃ b ∈ [(⟨"a", "A", 50, 80, []⟩ : TimeBar), ⟨"b", "B", 20, 60, []⟩],
      initMinDate 0 [⟨"a", "A", 50, 80, []⟩, ⟨"b", "B", 20, 60, []⟩] =
        b.startDate) ∧
    initMinDate 0 [(⟨"a", "A", 50, 80, []⟩ : TimeBar), ⟨"b", "B", 20, 60, []⟩]
      ≤ (50 : ℤ) := by
  have h1 := (initDomain_spec 1000 ([] : List TimeBar)).1 rfl
  have h2 := (initDomain_spec 0
    [(⟨"a", "A", 50, 80, []⟩ : TimeBar), ⟨"b", "B", 20, 60, []⟩]).2
    (by simp)
  exact ⟨h1, h2.1.1, h2.1.2 ⟨"a", "A", 50, 80, []⟩ (by simp)⟩

/-- `spliceStart` for an in-range nonnegative index is that index. -/
theorem spliceStart_of_nonneg_lt (n index : ℤ) (h0 : 0 ≤ index)
    (h1 : index < n) : spliceStart n index = index := by
  unfold spliceStart
  split_ifs with h <;> omega

/-- `spliceStart` clamps an index past the end to the length. -/
theorem spliceStart_of_ge (n index : ℤ) (h : n ≤ index) (hn : 0 ≤ n) :
    spliceStart n index = n := by
  unfold spliceStart
  split_ifs with h2 <;> omega

/-- `spliceStart` counts a negative index `-k` with `k ≤ n` from the end. -/
theorem spliceStart_of_neg (n k : ℤ) (h1 : 1 ≤ k) (h2 : k ≤ n) :
    spliceStart n (-k) = n - k := by
  unfold spliceStart
  split_ifs with h <;> omega

/-- C10: `removeTimeBar(index)` follows JavaScript splice semantics on the
`timebars` array — an in-range index removes exactly that element, an index
past the end leaves the contents unchanged, and a negative index `-k` with
`1 ≤ k ≤ n` removes the element at position `n - k` — and in every case the
clear-and-restore double redraw is performed. -/
theorem removeTimeBar_splice_semantics (s : TLState) (index : ℤ) :
    (removeTimeBar s index).redrawCount = s.redrawCount + 2 ∧
    (0 ≤ index → index < (s.timebars.length : ℤ) →
      (removeTimeBar s index).timebars = s.timebars.eraseIdx index.toNat) ∧
    ((s.timebars.length : ℤ) ≤ index →
      (removeTimeBar s index).timebars = s.timebars) ∧
    (∀ k : ℕ, 1 ≤ k → k ≤ s.timebars.length → index = -(k : ℤ) →
      (removeTimeBar s index).timebars =
        s.timebars.eraseIdx (s.timebars.length - k)) := by
  have hbars : (removeTimeBar s index).timebars =
      spliceRemoveOne s.timebars index := rfl
  refine ⟨?_, fun h0 h1 => ?_, fun h => ?_, fun k hk1 hk2 hke => ?_⟩
  · show s.redrawCount + 1 + 1 = s.redrawCount + 2
    omega
  · rw [hbars]
    unfold spliceRemoveOne
    rw [spliceStart_of_nonneg_lt _ _ h0 h1,
      List.eraseIdx_eq_take_drop_succ]
  · rw [hbars]
    unfold spliceRemoveOne
    rw [spliceStart_of_ge _ _ h (by positivity)]
    rw [Int.toNat_natCast]
    rw [List.take_length, List.drop_eq_nil_of_le (by omega),
      List.append_nil]
  · rw [hbars]
    unfold spliceRemoveOne
    subst hke
    rw [spliceStart_of_neg _ _ (by exact_mod_cast hk1) (by exact_mod_cast hk2)]
    have ht : ((s.timebars.length : ℤ) - (k : ℤ)).toNat =
        s.timebars.length - k := by omega
    rw [ht, List.eraseIdx_eq_take_drop_succ]

/-- C10 witness: on a concrete three-bar state, index 1 removes the middle
bar, index 5 leaves the array unchanged, index −1 removes the last bar, and
each call performs the double redraw. -/
theorem removeTimeBar_splice_semantics_witness :
    (removeTimeBar
        ⟨[⟨"a", "A", 0, 1, []⟩, ⟨"b", "B", 2, 3, []⟩, ⟨"c", "C", 4, 5, []⟩],
          29, ⟨0, 0, 0, 0⟩, 87, 107, 600, 600, true, 0⟩ 1).timebars =
      [⟨"a", "A", 0, 1, []⟩, ⟨"c", "C", 4, 5, []⟩] ∧
    (removeTimeBar
        ⟨[⟨"a", "A", 0, 1, []⟩, ⟨"b", "B", 2, 3, []⟩, ⟨"c", "C", 4, 5, []⟩],
          29, ⟨0, 0, 0, 0⟩, 87, 107, 600, 600, true, 0⟩ 5).timebars =
      [⟨"a", "A", 0, 1, []⟩, ⟨"b", "B", 2, 3, []⟩, ⟨"c", "C", 4, 5, []⟩] ∧
    (removeTimeBar
        ⟨[⟨"a", "A", 0, 1, []⟩, ⟨"b", "B", 2, 3, []⟩, ⟨"c", "C", 4, 5, []⟩],
          29, ⟨0, 0, 0, 0⟩, 87, 107, 600, 600, true, 0⟩ (-1)).timebars =
      [⟨"a", "A", 0, 1, []⟩, ⟨"b", "B", 2, 3, []⟩] ∧
    (removeTimeBar
        ⟨[⟨"a", "A", 0, 1, []⟩, ⟨"b", "B", 2, 3, []⟩, ⟨"c", "C", 4, 5, []⟩],
          29, ⟨0, 0, 0, 0⟩, 87, 107, 600, 600, true, 0⟩ 1).redrawCount = 2 := by
  have h1 := removeTimeBar_splice_semantics
    ⟨[⟨"a", "A", 0, 1, []⟩, ⟨"b", "B", 2, 3, []⟩, ⟨"c", "C", 4, 5, []⟩],
      29, ⟨0, 0, 0, 0⟩, 87, 107, 600, 600, true, 0⟩ 1
  have h5 := removeTimeBar_splice_semantics
    ⟨[⟨"a", "A", 0, 1, []⟩, ⟨"b", "B", 2, 3, []⟩, ⟨"c", "C", 4, 5, []⟩],
      29, ⟨0, 0, 0, 0⟩, 87, 107, 600, 600, true, 0⟩ 5
  have hm1 := removeTimeBar_splice_semantics
    ⟨[⟨"a", "A", 0, 1, []⟩, ⟨"b", "B", 2, 3, []⟩, ⟨"c", "C", 4, 5, []⟩],
      29, ⟨0, 0, 0, 0⟩, 87, 107, 600, 600, true, 0⟩ (-1)
  refine ⟨?_, ?_, ?_, ?_⟩
  · rw [h1.2.1 (by norm_num) (by norm_num)]
    rfl
  · rw [h5.2.2.1 (by norm_num)]
  · rw [hm1.2.2.2 1 (by norm_num) (by norm_num) (by norm_num)]
    rfl
  · rw [h1.1]

/-- `heightOf` with a positive lane height and a positive bar count is the
product (the 25px floor is not hit). -/
theorem heightOf_pos (lh : ℚ) (n : ℕ) (hlh : 0 < lh) (hn : 0 < n) :
    heightOf lh n = lh * n := by
  have hn' : (0 : ℚ) < n := by exact_mod_cast hn
  have hne : lh * (n : ℚ) ≠ 0 := ne_of_gt (mul_pos hlh hn')
  simp [heightOf, hne]

/-- `heightOf` at zero bars is the 25px floor. -/
theorem heightOf_zero (lh : ℚ) : heightOf lh 0 = 25 := by
  simp [heightOf]

/-- A freshly constructed widget with default `barHeight`/`barMargin`
(lane height 29) and no timebars: `reHeight` has set the height to the
25px floor. -/
def sEmpty : TLState := ⟨[], 29, ⟨0, 0, 0, 0⟩, 25, 45, 600, 600, true, 0⟩

/-- A sample time bar. -/
def barA : TimeBar := ⟨"a", "A", 0, 1000, []⟩

/-- C5 counterexample: on the empty default widget (height at the 25px
floor, lane height 29), adding a bar moves the height from 25 to 29 — an
increase of 4, not of one `laneHeight` — so the unconditional
"by exactly one laneHeight" claim fails. -/
theorem addTimeBar_height_counterexample :
    ¬((addTimeBarJSON sEmpty barA).height =
        sEmpty.height + sEmpty.laneHeight) := by
  have h : (addTimeBarJSON sEmpty barA).height = 29 := by
    show heightOf 29 1 = 29
    rw [heightOf_pos 29 1 (by norm_num) (by norm_num)]
    norm_num
  rw [h]
  show ¬((29 : ℚ) = 25 + 29)
  norm_num

/-- C5 (amended): on a consistent state (height agrees with `reHeight` and
the lane height is positive), adding a bar when at least one bar is present
increases the height by exactly one `laneHeight` (via `addTimeBar` or
`addTimeBarJSON`); removing a bar at a valid index when at least two are
present decreases it by exactly one `laneHeight`; removing the last
remaining bar restores the 25px default; and adding to an empty widget
moves the height from the 25px floor to one `laneHeight`. -/
theorem addRemove_height_delta (s : TLState) (bar : TimeBar)
    (hcons : s.height = heightOf s.laneHeight s.timebars.length)
    (hlh : 0 < s.laneHeight) :
    (1 ≤ s.timebars.length →
      (addTimeBarJSON s bar).height = s.height + s.laneHeight ∧
      (∀ name label sd ed dts,
        (addTimeBar s name label sd ed dts).height =
          s.height + s.laneHeight)) ∧
    (s.timebars.length = 0 →
      s.height = 25 ∧ (addTimeBarJSON s bar).height = s.laneHeight) ∧
    (∀ index : ℤ, 0 ≤ index → index < (s.timebars.length : ℤ) →
      (2 ≤ s.timebars.length →
        (removeTimeBar s index).height = s.height - s.laneHeight) ∧
      (s.timebars.length = 1 → (removeTimeBar s index).height = 25)) := by
  have hadd : ∀ l : List TimeBar, l.length = s.timebars.length + 1 →
      heightOf s.laneHeight l.length = heightOf s.laneHeight s.timebars.length
        + s.laneHeight ∨
      (s.timebars.length = 0 ∧ heightOf s.laneHeight l.length = s.laneHeight)
      := by
    intro l hl
    rcases Nat.eq_zero_or_pos s.timebars.length with hz | hp
    · right
      refine ⟨hz, ?_⟩
      rw [hl, hz, heightOf_pos _ _ hlh (by norm_num)]
      norm_num
    · left
      rw [hl, heightOf_pos _ _ hlh (by omega), heightOf_pos _ _ hlh hp]
      push_cast
      ring
  refine ⟨fun h1 => ?_, fun h0 => ?_, fun index hi0 hi1 => ?_⟩
  · have hlen : (s.timebars ++ [bar]).length = s.timebars.length + 1 := by
      simp
    have haj : (addTimeBarJSON s bar).height =
        heightOf s.laneHeight (s.timebars ++ [bar]).length := rfl
    have key : (addTimeBarJSON s bar).height = s.height + s.laneHeight := by
      rcases hadd _ hlen with hc | hc
      · rw [haj, hc, hcons]
      · omega
    refine ⟨key, fun name label sd ed dts => ?_⟩
    have hlen2 : (s.timebars ++ [(⟨name, label, sd, ed, dts⟩ : TimeBar)]).length
        = s.timebars.length + 1 := by simp
    have haj2 : (addTimeBar s name label sd ed dts).height =
        heightOf s.laneHeight
          (s.timebars ++ [(⟨name, label, sd, ed, dts⟩ : TimeBar)]).length :=
      rfl
    rcases hadd _ hlen2 with hc | hc
    · rw [haj2, hc, hcons]
    · omega
  · have hlen : (s.timebars ++ [bar]).length = s.timebars.length + 1 := by
      simp
    have haj : (addTimeBarJSON s bar).height =
        heightOf s.laneHeight (s.timebars ++ [bar]).length := rfl
    constructor
    · rw [hcons, h0, heightOf_zero]
    · rw [haj, hlen, h0, heightOf_pos _ _ hlh (by norm_num)]
      norm_num
  · have hrm : (removeTimeBar s index).height =
        heightOf s.laneHeight (spliceRemoveOne s.timebars index).length := rfl
    have hslen : (spliceRemoveOne s.timebars index).length =
        s.timebars.length - 1 := by
      unfold spliceRemoveOne
      rw [spliceStart_of_nonneg_lt _ _ hi0 hi1]
      have hlt : index.toNat < s.timebars.length := by omega
      simp only [List.length_append, List.length_take, List.length_drop]
      omega
    refine ⟨fun h2 => ?_, fun h1 => ?_⟩
    · rw [hrm, hslen, heightOf_pos _ _ hlh (by omega), hcons,
        heightOf_pos _ _ hlh (by omega)]
      have hcast : ((s.timebars.length - 1 : ℕ) : ℚ) =
          (s.timebars.length : ℚ) - 1 := by
        rw [Nat.cast_sub (by omega : 1 ≤ s.timebars.length)]
        norm_num
      rw [hcast]
      ring
    · rw [hrm, hslen, h1]
      exact heightOf_zero _

/-- A consistent two-bar state with the default lane height 29
(`height = 58`). -/
def sTwo : TLState :=
  ⟨[⟨"a", "A", 0, 1, []⟩, ⟨"b", "B", 2, 3, []⟩],
    29, ⟨0, 0, 0, 0⟩, 58, 78, 600, 600, true, 0⟩

/-- A consistent one-bar state with the default lane height 29
(`height = 29`). -/
def sOne : TLState :=
  ⟨[⟨"a", "A", 0, 1, []⟩], 29, ⟨0, 0, 0, 0⟩, 29, 49, 600, 600, true, 0⟩

/-- C5 witness: on the concrete two-bar state, adding a bar raises the
height 58 → 87 (one lane) and removing index 0 lowers it 58 → 29 (one
lane); on the one-bar state, removing the last bar restores 25. -/
theorem addRemove_height_delta_witness :
    (sTwo.height = heightOf sTwo.laneHeight sTwo.timebars.length ∧
      (0 : ℚ) < sTwo.laneHeight ∧ 1 ≤ sTwo.timebars.length) ∧
    (addTimeBarJSON sTwo barA).height = sTwo.height + sTwo.laneHeight ∧
    (removeTimeBar sTwo 0).height = sTwo.height - sTwo.laneHeight ∧
    (removeTimeBar sOne 0).height = 25 := by
  have hconsTwo : sTwo.height = heightOf sTwo.laneHeight
      sTwo.timebars.length := by
    show (58 : ℚ) = heightOf 29 2
    rw [heightOf_pos 29 2 (by norm_num) (by norm_num)]
    norm_num
  have hconsOne : sOne.height = heightOf sOne.laneHeight
      sOne.timebars.length := by
    show (29 : ℚ) = heightOf 29 1
    rw [heightOf_pos 29 1 (by norm_num) (by norm_num)]
    norm_num
  have h2 := addRemove_height_delta sTwo barA hconsTwo (by norm_num [sTwo])
  have h1 := addRemove_height_delta sOne barA hconsOne (by norm_num [sOne])
  exact ⟨⟨hconsTwo, by norm_num [sTwo], by norm_num [sTwo]⟩,
    (h2.1 (by norm_num [sTwo])).1,
    (h2.2.2 0 (by norm_num) (by norm_num [sTwo])).1 (by norm_num [sTwo]),
    (h1.2.2 0 (by norm_num) (by norm_num [sOne])).2 (by norm_num [sOne])⟩

/-- The splice-and-decrement loop is a filter: starting the scan at `i`,
it keeps the first `i` elements, removes every later bar whose name
matches, and reports whether any removal happened. -/
theorem removeByNameLoop_spec (name : String) :
    ∀ (fuel : ℕ) (bars : List TimeBar) (i : ℕ) (m : Bool),
      bars.length - i ≤ fuel →
      removeByNameLoop name bars i m =
        (bars.take i ++ (bars.drop i).filter (fun b => !(b.name == name)),
         m || (bars.drop i).any (fun b => b.name == name)) := by
  intro fuel
  induction fuel with
  | zero =>
    intro bars i m hle
    have hge : bars.length ≤ i := by omega
    rw [removeByNameLoop, dif_neg (by omega), List.drop_eq_nil_of_le hge]
    simp [List.take_of_length_le hge]
  | succ fuel ih =>
    intro bars i m hle
    rw [removeByNameLoop]
    by_cases h : i < bars.length
    · rw [dif_pos h]
      have hlen1 : (bars.take i).length = i := by
        rw [List.length_take]
        omega
      have hdc : bars.drop i = bars.get ⟨i, h⟩ :: bars.drop (i + 1) :=
        List.drop_eq_get_cons h
      by_cases hm : (bars.get ⟨i, h⟩).name == name
      · rw [if_pos hm]
        have hlen : (bars.take i ++ bars.drop (i + 1)).length =
            bars.length - 1 := by
          simp only [List.length_append, List.length_take, List.length_drop]
          omega
        rw [ih _ _ _ (by omega)]
        have htake : (bars.take i ++ bars.drop (i + 1)).take i =
            bars.take i := by
          rw [List.take_append_eq_append_take, hlen1]
          simp [List.take_take]
        have hdrop : (bars.take i ++ bars.drop (i + 1)).drop i =
            bars.drop (i + 1) := by
          rw [List.drop_append_eq_append_drop, hlen1]
          simp [List.drop_eq_nil_of_le (le_of_eq hlen1)]
        have hpf : ¬((fun b => !(TimeBar.name b == name))
            (bars.get ⟨i, h⟩) = true) := by
          simpa using hm
        have hfilter2 : (bars.drop i).filter (fun b => !(b.name == name)) =
            (bars.drop (i + 1)).filter (fun b => !(b.name == name)) := by
          rw [hdc]
          exact List.filter_cons_of_neg hpf
        have hany2 : (bars.drop i).any (fun b => b.name == name) = true := by
          rw [hdc, List.any_cons, hm, Bool.true_or]
        rw [htake, hdrop, hfilter2, hany2, Bool.true_or, Bool.or_true]
      · rw [if_neg hm]
        rw [ih _ _ _ (by omega)]
        have hmf : ((bars.get ⟨i, h⟩).name == name) = false := by
          simpa using hm
        have hpt : (fun b => !(TimeBar.name b == name))
            (bars.get ⟨i, h⟩) = true := by
          simpa using hmf
        have hfilter : (bars.drop i).filter (fun b => !(b.name == name)) =
            bars.get ⟨i, h⟩ ::
              (bars.drop (i + 1)).filter (fun b => !(b.name == name)) := by
          rw [hdc]
          exact List.filter_cons_of_pos hpt
        have hany : (bars.drop i).any (fun b => b.name == name) =
            (bars.drop (i + 1)).any (fun b => b.name == name) := by
          rw [hdc, List.any_cons, hmf, Bool.false_or]
        have htake1 : bars.take (i + 1) =
            (bars.take i).concat (bars.get ⟨i, h⟩) := by
          rw [List.get_eq_getElem]
          exact (List.take_concat_get bars i h).symm
        rw [htake1, hfilter, hany, List.concat_append]
    · rw [dif_neg h]
      have hge : bars.length ≤ i := by omega
      rw [List.drop_eq_nil_of_le hge]
      simp [List.take_of_length_le hge]

/-- C4: `removeTimeBarByName(name)` removes every bar whose name equals the
given name — the resulting sequence is exactly the order-preserving filter
of the original — and when no bar matches it is a complete no-op (the whole
widget state, including geometry and the redraw counter, is unchanged);
when at least one bar matches, the clear-and-restore double redraw runs. -/
theorem removeByName_filter (s : TLState) (name : String) :
    (removeTimeBarByName s name).timebars =
      s.timebars.filter (fun b => !(b.name == name)) ∧
    ((∀ b ∈ s.timebars, ¬(b.name = name)) → removeTimeBarByName s name = s) ∧
    ((∃ b ∈ s.timebars, b.name = name) →
      (removeTimeBarByName s name).redrawCount = s.redrawCount + 2) := by
  have hloop := removeByNameLoop_spec name s.timebars.length s.timebars 0
    false (by omega)
  simp only [List.take_zero, List.drop_zero, List.nil_append,
    Bool.false_or] at hloop
  have hdef : removeTimeBarByName s name =
      (if !(removeByNameLoop name s.timebars 0 false).2 then
        { s with timebars := (removeByNameLoop name s.timebars 0 false).1 }
      else
        redrawStep (reHeight
          { redrawStep (reHeight { s with timebars := [] }) with
              timebars := (removeByNameLoop name s.timebars 0 false).1 })) :=
    rfl
  rw [hloop] at hdef
  by_cases hany : s.timebars.any (fun b => b.name == name)
  · rw [hdef, if_neg (by simp [hany])]
    refine ⟨rfl, fun hno => ?_, fun _ => ?_⟩
    · exfalso
      obtain ⟨b, hb, hbn⟩ := List.any_eq_true.mp hany
      exact hno b hb (by simpa using hbn)
    · show s.redrawCount + 1 + 1 = s.redrawCount + 2
      omega
  · have hanyf : s.timebars.any (fun b => b.name == name) = false := by
      simpa using hany
    rw [hdef, hanyf]
    have hfid : s.timebars.filter (fun b => !(b.name == name)) =
        s.timebars := by
      apply List.filter_eq_self.mpr
      intro b hb
      have := List.any_eq_false.mp hanyf b hb
      simpa using this
    rw [hfid]
    refine ⟨rfl, fun _ => rfl, fun hex => ?_⟩
    exfalso
    obtain ⟨b, hb, hbn⟩ := hex
    exact (List.any_eq_false.mp hanyf b hb) (by simpa using hbn)

/-- A state with two bars named "a" around one named "b" (lane height 29,
height 87). -/
def sDup : TLState :=
  ⟨[⟨"a", "A", 0, 1, []⟩, ⟨"b", "B", 2, 3, []⟩, ⟨"a", "A2", 4, 5, []⟩],
    29, ⟨0, 0, 0, 0⟩, 87, 107, 600, 600, true, 0⟩

/-- C4 witness: on the concrete duplicate-name state, removing "a" removes
both matching bars (keeping "b"), removing the unmatched "z" is the
identity on the whole state, and the matched removal performs the double
redraw. -/
theorem removeByName_filter_witness :
    (removeTimeBarByName sDup "a").timebars = [⟨"b", "B", 2, 3, []⟩] ∧
    removeTimeBarByName sDup "z" = sDup ∧
    (removeTimeBarByName sDup "a").redrawCount = sDup.redrawCount + 2 := by
  have ha := removeByName_filter sDup "a"
  have hz := removeByName_filter sDup "z"
  refine ⟨?_, ?_, ?_⟩
  · rw [ha.1]
    rfl
  · refine hz.2.1 ?_
    intro b hb
    fin_cases hb <;> simp
  · exact ha.2.2 ⟨⟨"a", "A", 0, 1, []⟩, by simp [sDup], rfl⟩

/-- Invariant of the `getNearestInArray` fold once the accumulator is
non-null: the final result improves (weakly) on the accumulator and on
every element of the remaining list, and it is either the accumulator
itself or the first element of the remaining list realising a strict
improvement over everything before it. -/
theorem nearestFold_spec (goal : ℚ) :
    ∀ (l : List ℚ) (c : ℚ),
      ∃ r, l.foldl (nearestStep goal) (some c) = some r ∧
        |r - goal| ≤ |c - goal| ∧
        (∀ e ∈ l, |r - goal| ≤ |e - goal|) ∧
        (r = c ∨ ∃ i, ∃ hi : i < l.length, l.get ⟨i, hi⟩ = r ∧
          |r - goal| < |c - goal| ∧
          ∀ j, ∀ hj : j < l.length, j < i →
            |r - goal| < |l.get ⟨j, hj⟩ - goal|) := by
  intro l
  induction l with
  | nil =>
    intro c
    exact ⟨c, rfl, le_rfl, by simp, Or.inl rfl⟩
  | cons e t ih =>
    intro c
    by_cases hlt : |e - goal| < |c - goal|
    · obtain ⟨r, hr, hle, hall, hcase⟩ := ih e
      have hfold : (e :: t).foldl (nearestStep goal) (some c) =
          t.foldl (nearestStep goal) (some e) := by
        simp [List.foldl_cons, nearestStep, hlt]
      refine ⟨r, by rw [hfold]; exact hr, by linarith, ?_, ?_⟩
      · intro x hx
        rcases List.mem_cons.mp hx with hx | hx
        · subst hx
          exact hle
        · exact hall x hx
      · rcases hcase with hrc | ⟨i, hi, hget, hlt2, hprev⟩
        · right
          refine ⟨0, by simp, by simpa using hrc.symm, ?_, ?_⟩
          · subst hrc
            exact hlt
          · intro j hj hj0
            exact absurd hj0 (Nat.not_lt_zero j)
        · right
          refine ⟨i + 1, by simpa using hi, by simpa using hget,
            by linarith, ?_⟩
          intro j hj hjlt
          cases j with
          | zero => simpa using hlt2
          | succ j2 =>
            have hj2 : j2 < t.length := by simpa using hj
            simpa using hprev j2 hj2 (by omega)
    · have hge : |c - goal| ≤ |e - goal| := not_lt.mp hlt
      obtain ⟨r, hr, hle, hall, hcase⟩ := ih c
      have hfold : (e :: t).foldl (nearestStep goal) (some c) =
          t.foldl (nearestStep goal) (some c) := by
        simp [List.foldl_cons, nearestStep, hlt]
      refine ⟨r, by rw [hfold]; exact hr, hle, ?_, ?_⟩
      · intro x hx
        rcases List.mem_cons.mp hx with hx | hx
        · subst hx
          linarith
        · exact hall x hx
      · rcases hcase with hrc | ⟨i, hi, hget, hlt2, hprev⟩
        · exact Or.inl hrc
        · right
          refine ⟨i + 1, by simpa using hi, by simpa using hget, hlt2, ?_⟩
          intro j hj hjlt
          cases j with
          | zero =>
            show |r - goal| < |e - goal|
            linarith
          | succ j2 =>
            have hj2 : j2 < t.length := by simpa using hj
            simpa using hprev j2 hj2 (by omega)

/-- C8: for a non-empty array, `getNearestInArray` returns an element of
the array with minimal absolute difference to the goal, and on ties the
element occurring first in the array wins: every strictly earlier element
is strictly farther from the goal. -/
theorem getNearest_first_min (arr : List ℚ) (goal : ℚ) (hne : arr ≠ []) :
    ∃ r, getNearestInArray arr goal = some r ∧
      ∃ i, ∃ hi : i < arr.length, arr.get ⟨i, hi⟩ = r ∧
        (∀ j, ∀ hj : j < arr.length, |r - goal| ≤ |arr.get ⟨j, hj⟩ - goal|) ∧
        (∀ j, ∀ hj : j < arr.length, j < i →
          |r - goal| < |arr.get ⟨j, hj⟩ - goal|) := by
  match arr, hne with
  | e :: t, _ =>
    obtain ⟨r, hr, hle, hall, hcase⟩ := nearestFold_spec goal t e
    have hfold : getNearestInArray (e :: t) goal =
        t.foldl (nearestStep goal) (some e) := rfl
    refine ⟨r, by rw [hfold]; exact hr, ?_⟩
    rcases hcase with hrc | ⟨i, hi, hget, hlt2, hprev⟩
    · refine ⟨0, by simp, by simpa using hrc.symm, ?_, ?_⟩
      · intro j hj
        cases j with
        | zero =>
          subst hrc
          simp
        | succ j2 =>
          have hj2 : j2 < t.length := by simpa using hj
          simpa using hall _ (t.get_mem j2 hj2)
      · intro j hj hj0
        exact absurd hj0 (Nat.not_lt_zero j)
    · refine ⟨i + 1, by simpa using hi, by simpa using hget, ?_, ?_⟩
      · intro j hj
        cases j with
        | zero => simpa using hle
        | succ j2 =>
          have hj2 : j2 < t.length := by simpa using hj
          simpa using hall _ (t.get_mem j2 hj2)
      · intro j hj hjlt
        cases j with
        | zero => simpa using hlt2
        | succ j2 =>
          have hj2 : j2 < t.length := by simpa using hj
          simpa using hprev j2 hj2 (by omega)

/-- C8 witness: the month-step candidate array at goal 5 (tied between 4
and 6, so the first-found 4 must win). -/
theorem getNearest_first_min_witness :
    ([(1 : ℚ), 2, 3, 4, 6, 12] ≠ []) ∧
    (∃ r, getNearestInArray [1, 2, 3, 4, 6, 12] 5 = some r ∧
      ∃ i, ∃ hi : i < ([(1 : ℚ), 2, 3, 4, 6, 12]).length,
        ([(1 : ℚ), 2, 3, 4, 6, 12]).get ⟨i, hi⟩ = r ∧
        (∀ j, ∀ hj : j < ([(1 : ℚ), 2, 3, 4, 6, 12]).length,
          |r - 5| ≤ |([(1 : ℚ), 2, 3, 4, 6, 12]).get ⟨j, hj⟩ - 5|) ∧
        (∀ j, ∀ hj : j < ([(1 : ℚ), 2, 3, 4, 6, 12]).length, j < i →
          |r - 5| < |([(1 : ℚ), 2, 3, 4, 6, 12]).get ⟨j, hj⟩ - 5|)) :=
  ⟨by simp, getNearest_first_min [1, 2, 3, 4, 6, 12] 5 (by simp)⟩

end OpecTimeLine
